import Mathlib

/-!
Verification of the stock-trade outlier-analysis pipeline
(data_loader.py, analysis.py, create_graph.py, visualization.py).

The pipeline is shallowly embedded over exact rationals:
* a raw CSV cell is either a numeric value or an unparsable token
  (`pd.to_numeric(..., errors='coerce')` maps the latter to NaN, which we
  model as `none` in `Option ℚ`);
* a pandas comparison `NaN < x` / `NaN > x` / `NaN != 0` evaluates to
  `False` / `False` / `True`; the `Option ℚ` comparisons below reproduce
  exactly these outcomes;
* floating-point arithmetic is modelled by exact rational arithmetic, and
  the z-score / 2σ band comparisons against `std = sqrt var` are stated in
  the equivalent squared form `(x − mean)^2 > c^2 * var` so that every
  definition stays computable; the bridging theorems restate them with
  `Real.sqrt` as the source writes them.
-/

namespace StockGraph

/-- A raw CSV cell for an OHLCV column: either a value that
`pd.to_numeric` parses, or an unparsable token (`bad`), tagged so that
distinct unparsable strings stay distinct raw cells. -/
inductive RawField where
  | num (q : ℚ)
  | bad (tag : ℕ)
deriving DecidableEq, Repr

/-- A raw CSV row after the `Gmt time` column has been parsed
(`pd.to_datetime` with a fixed day-first format; a parse failure aborts the
load, so rows reaching the cleaning steps have a valid timestamp, modelled
as a natural number). -/
structure RawRow where
  ts : ℕ
  open_ : RawField
  high : RawField
  low : RawField
  close : RawField
  volume : RawField
deriving DecidableEq, Repr

/-- `pd.to_numeric(col, errors='coerce')` on one cell: numeric cells keep
their value, unparsable cells become the missing-value marker. -/
def toNumeric : RawField → Option ℚ
  | .num q => some q
  | .bad _ => none

/-- A cleaned observation: parsed timestamp plus coerced OHLCV fields
(`none` = NaN from a failed coercion). -/
structure Obs where
  ts : ℕ
  open_ : Option ℚ
  high : Option ℚ
  low : Option ℚ
  close : Option ℚ
  volume : Option ℚ
deriving DecidableEq, Repr

/-- Numeric coercion of a whole row (data_loader.py lines 16–18). -/
def coerceRow (r : RawRow) : Obs :=
  ⟨r.ts, toNumeric r.open_, toNumeric r.high, toNumeric r.low,
    toNumeric r.close, toNumeric r.volume⟩

/-- `data.drop_duplicates()` (data_loader.py line 14): keep the first
occurrence of each fully-identical raw row, preserving order. -/
def dedupRows : List RawRow → List RawRow
  | [] => []
  | r :: rest => r :: dedupRows (rest.filter (fun x => x ≠ r))
termination_by l => l.length
decreasing_by
  simp only [List.length_cons]
  exact Nat.lt_succ_of_le (List.length_filter_le _ _)

/-- `load_and_clean_data` (data_loader.py): drop duplicate raw rows,
coerce the OHLCV columns to numbers, then drop rows whose volume is
exactly 0 (`data[data['Volume'] != 0]`; a NaN volume compares unequal
to 0 and is kept). -/
def load_and_clean_data (rs : List RawRow) : List Obs :=
  ((dedupRows rs).map coerceRow).filter (fun o => o.volume ≠ some 0)

/-- Mean of a list of rationals (`Series.mean` over the non-null entries;
the series fed to it below never contains nulls). Empty list: 0 stands in
for pandas' NaN — never reached by the claims proved here. -/
def meanQ (l : List ℚ) : ℚ := l.sum / l.length

/-- Sample variance with the `ddof = 1` normalisation used by
`Series.std` (squared, to stay in ℚ). A single-element series gives
denominator 0, hence 0 (pandas: NaN) — in both models no row is flagged. -/
def sampleVar (l : List ℚ) : ℚ :=
  (l.map (fun x => (x - meanQ l) ^ 2)).sum / ((l.length - 1 : ℕ) : ℚ)

/-- An annotated observation produced by `detect_outliers`: the original
fields plus the `Return` column and the outlier flag (rows whose return is
NaN have been dropped, so `ret` is a definite rational). -/
structure AObs where
  ts : ℕ
  open_ : Option ℚ
  high : Option ℚ
  low : Option ℚ
  close : Option ℚ
  volume : Option ℚ
  ret : ℚ
  is_outlier : Bool
deriving DecidableEq, Repr

/-- The `pct_change` value of a row given the previous row's close:
`(close_t − close_{t−1}) / close_{t−1}`, NaN (`none`) when either close is
missing — in particular for the first row, whose predecessor close is
`none`.  (Exact-rational caveat: a zero previous close gives the total
ℚ-division value instead of a float ±inf/NaN; no claim involves a zero
close.) -/
def pctChange (o : Obs) (prevClose : Option ℚ) : Option ℚ :=
  match prevClose, o.close with
  | some p, some c => some ((c - p) / p)
  | _, _ => none

/-- Recursive worker for `withReturns`: walk the frame carrying the
previous row's close, keep rows whose `pct_change` is defined. -/
def withReturnsAux (prev : Option ℚ) : List Obs → List (Obs × ℚ)
  | [] => []
  | o :: rest =>
    match pctChange o prev with
    | some r => (o, r) :: withReturnsAux o.close rest
    | none => withReturnsAux o.close rest

/-- Each row paired with its `Return`, rows with a NaN return removed
(`data['Return'] = data['Close'].pct_change()` followed by
`data.dropna(subset=['Return'])`).  The lemma `withReturns_eq_zip` below
restates this as the direct zip-with-predecessor reading of
`pct_change`. -/
def withReturns (data : List Obs) : List (Obs × ℚ) := withReturnsAux none data

/-- The return series the statistics are computed over: the `Return`
column after `dropna`. -/
def retSeries (data : List Obs) : List ℚ := (withReturns data).map (·.2)

/-- `detect_outliers` (data_loader.py): compute returns, drop the rows
with an undefined return, and flag `|z_score| > threshold` where
`z_score = (Return − mean) / std` with mean/std over the whole remaining
return series.  The flag is stored in the equivalent squared form
`(Return − mean)^2 > threshold^2 * var` (`std = sqrt var`), which agrees
with the source for every `var ≥ 0` and with the pandas NaN outcome
(`NaN > t` is `False`) when the variance is zero or undefined. -/
def detect_outliers (data : List Obs) (threshold : ℚ) : List AObs :=
  (withReturns data).map (fun p =>
    ⟨p.1.ts, p.1.open_, p.1.high, p.1.low, p.1.close, p.1.volume, p.2,
      decide ((p.2 - meanQ (retSeries data)) ^ 2 >
        threshold ^ 2 * sampleVar (retSeries data))⟩)

/-- `Series.quantile(q)` with the default linear interpolation, over the
non-null entries of the series (pandas skips NaN): sort the values, set
`h = q * (n − 1)`, and interpolate between the values at positions
`⌊h⌋` and `⌊h⌋ + 1`.  Empty input gives 0 (pandas: NaN) — never reached
by the claims proved here. -/
def quantileQ (l : List ℚ) (q : ℚ) : ℚ :=
  let s := List.insertionSort (· ≤ ·) l
  let h := q * ((s.length - 1 : ℕ) : ℚ)
  let i := ⌊h⌋₊
  let lo := s.getD i 0
  let hi := s.getD (i + 1) lo
  lo + (h - i) * (hi - lo)

/-- A fully annotated observation: `detect_outliers` output plus the
`deviates_guideline` flag from `compute_guideline_deviation`. -/
structure GObs where
  ts : ℕ
  open_ : Option ℚ
  high : Option ℚ
  low : Option ℚ
  close : Option ℚ
  volume : Option ℚ
  ret : ℚ
  is_outlier : Bool
  deviates_guideline : Bool
deriving DecidableEq, Repr

/-- A pandas comparison `value < bound` where `value` may be NaN
(`none`): NaN comparisons are `False`. -/
def optLt (a : Option ℚ) (b : ℚ) : Bool :=
  match a with
  | some x => decide (x < b)
  | none => false

/-- A pandas comparison `value > bound` where `value` may be NaN. -/
def optGt (a : Option ℚ) (b : ℚ) : Bool :=
  match a with
  | some x => decide (x > b)
  | none => false

/-- The volume values the quantiles are computed over (pandas' `quantile`
skips NaN entries). -/
def volSeries (data : List AObs) : List ℚ := data.filterMap (·.volume)

/-- The return series of the annotated frame (`data['Return']` as
`compute_guideline_deviation` sees it). -/
def aretSeries (data : List AObs) : List ℚ := data.map (·.ret)

/-- `compute_guideline_deviation` (analysis.py): flag rows whose volume
lies outside `[quantile(0.05), quantile(0.95)]` or whose return lies
outside `[mean − 2·std, mean + 2·std]`.  The return band test is stored in
the equivalent squared form `(Return − mean)^2 > 4 * var`
(`std = sqrt var`), which agrees with the source's pair of strict
comparisons for every `var ≥ 0`. -/
def compute_guideline_deviation (data : List AObs) : List GObs :=
  data.map (fun o =>
    ⟨o.ts, o.open_, o.high, o.low, o.close, o.volume, o.ret, o.is_outlier,
      (optLt o.volume (quantileQ (volSeries data) (5 / 100)) ||
        optGt o.volume (quantileQ (volSeries data) (95 / 100))) ||
      decide ((o.ret - meanQ (aretSeries data)) ^ 2 >
        4 * sampleVar (aretSeries data))⟩)

/-- A Trade node as written by `create_trade_node` (create_graph.py):
`trade_id` and `timestamp` are both the observation's timestamp
(`isoformat` of `Gmt time`, an injective rendering, modelled by the
timestamp itself). -/
structure Trade where
  trade_id : ℕ
  timestamp : ℕ
  open_ : Option ℚ
  high : Option ℚ
  low : Option ℚ
  close : Option ℚ
  volume : Option ℚ
  is_outlier : Bool
  deviates_guideline : Bool
deriving DecidableEq, Repr

/-- The node set: one `CREATE (t:Trade ...)` per row of the annotated
frame, in iteration order (create_graph.py lines 44–60). -/
def tradeNodes (data : List GObs) : List Trade :=
  data.map (fun o =>
    ⟨o.ts, o.ts, o.open_, o.high, o.low, o.close, o.volume,
      o.is_outlier, o.deviates_guideline⟩)

/-- `trade_ids` (create_graph.py line 77): the identifiers of the frame
sorted ascending by `Gmt time`.  Since the identifier IS the timestamp,
sorting the rows by timestamp and projecting equals sorting the projected
timestamp list. -/
def trade_ids (data : List GObs) : List ℕ :=
  List.insertionSort (· ≤ ·) (data.map (·.ts))

/-- The NEXT edge set (create_graph.py lines 79–81): one edge between
each pair of consecutive identifiers of the chronologically sorted
list. -/
def nextEdges (data : List GObs) : List (ℕ × ℕ) :=
  (trade_ids data).zip (trade_ids data).tail

/-- `SIMILAR_THRESHOLD` (create_graph.py line 88). -/
def SIMILAR_THRESHOLD : ℚ := 5 / 10000

/-- The `1e-6` epsilon added to the price difference before inverting
(create_graph.py line 113). -/
def simEps : ℚ := 1 / 1000000

/-- The body of the pairwise similarity test (create_graph.py lines
111–113): if both opens are numeric and `|open_i − open_j| < thr`, the
weight `1 / (|open_i − open_j| + 1e-6)`; otherwise nothing.  A NaN open
gives a NaN difference and `NaN < thr` is `False` in pandas, so no edge is
emitted for such pairs. -/
def simCheck (a b : Option ℚ) (thr : ℚ) : Option ℚ :=
  match a, b with
  | some x, some y =>
    if |x - y| < thr then some (1 / (|x - y| + simEps)) else none
  | _, _ => none

/-- The SIMILAR edge set over the open-price column (create_graph.py
lines 108–114): for every index pair `i < j` in iteration order, run the
similarity test and emit `(i, j, weight)` on success. -/
def simPairs (opens : List (Option ℚ)) (thr : ℚ) : List (ℕ × ℕ × ℚ) :=
  (List.range opens.length).flatMap (fun i =>
    (List.range opens.length).filterMap (fun j =>
      if i < j then
        (simCheck (opens.getD i none) (opens.getD j none) thr).map
          (fun s => (i, j, s))
      else none))

/-- One write issued to the graph store. -/
inductive WriteOp where
  | node (id : ℕ)
  | nextRel (src dst : ℕ)
  | similarRel (src dst : ℕ) (similarity : ℚ)
deriving DecidableEq, Repr

/-- The endpoint identifiers of an edge write, `none` for a node write. -/
def edgeEndpoints : WriteOp → Option (ℕ × ℕ)
  | .node _ => none
  | .nextRel a b => some (a, b)
  | .similarRel a b _ => some (a, b)

/-- The full sequence of writes issued by create_graph.py: the node loop
(lines 44–60), then the NEXT loop (lines 79–81), then the SIMILAR loop
(lines 108–114); the script runs them strictly in this order. -/
def writeTrace (data : List GObs) : List WriteOp :=
  (tradeNodes data).map (fun t => .node t.trade_id) ++
  (nextEdges data).map (fun p => .nextRel p.1 p.2) ++
  (simPairs (data.map (·.open_)) SIMILAR_THRESHOLD).map (fun e =>
    .similarRel ((data.map (·.ts)).getD e.1 0)
      ((data.map (·.ts)).getD e.2.1 0) e.2.2)

/-- Following NEXT edges: the successor of `a` in an edge list (the
first edge whose source is `a`). -/
def stepNext (edges : List (ℕ × ℕ)) (a : ℕ) : Option ℕ :=
  (edges.find? (fun e => e.1 == a)).map (·.2)

/-- The walk obtained by following NEXT edges from `a` for at most `fuel`
steps (the fuel is only a termination bound; the chain proved below stops
exactly when the fuel runs out). -/
def walkNext (edges : List (ℕ × ℕ)) : ℕ → ℕ → List ℕ
  | 0, a => [a]
  | fuel + 1, a =>
    a :: (match stepNext edges a with
      | none => []
      | some b => walkNext edges fuel b)

/-! ## Lemmas about the return computation -/

/-- `withReturns` is the list of rows zipped with their predecessor's
close, mapped through `pct_change` and with the undefined entries
dropped — the literal reading of `Close.pct_change()` + `dropna`. -/
lemma withReturns_eq_zip (data : List Obs) :
    withReturns data =
      (data.zip (none :: data.map (·.close))).filterMap
        (fun p => (pctChange p.1 p.2).map (fun r => (p.1, r))) := by
  rw [withReturns]
  generalize (none : Option ℚ) = prev
  induction data generalizing prev with
  | nil => rfl
  | cons o rest ih =>
    rw [withReturnsAux]
    simp only [List.map_cons, List.zip_cons_cons, List.filterMap_cons]
    cases h : pctChange o prev with
    | none => simp [h, ih]
    | some r => simp [h, ih]

/-! ## Lemmas about the similarity edge set -/

lemma simCheck_eq_some {a b : Option ℚ} {thr s : ℚ} :
    simCheck a b thr = some s ↔
      ∃ x y, a = some x ∧ b = some y ∧ |x - y| < thr ∧
        s = 1 / (|x - y| + simEps) := by
  cases a with
  | none => simp [simCheck]
  | some x =>
    cases b with
    | none => simp [simCheck]
    | some y =>
      simp only [simCheck]
      split_ifs with h
      · rw [Option.some_inj]
        constructor
        · intro hs
          exact ⟨x, y, rfl, rfl, h, hs.symm⟩
        · rintro ⟨x', y', hx, hy, -, hs⟩
          cases hx; cases hy
          exact hs.symm
      · constructor
        · intro hs
          exact absurd hs (by simp)
        · rintro ⟨x', y', hx, hy, hlt, -⟩
          cases hx; cases hy
          exact absurd hlt h

lemma mem_simPairs {opens : List (Option ℚ)} {thr : ℚ} {i j : ℕ} {s : ℚ} :
    (i, j, s) ∈ simPairs opens thr ↔
      i < j ∧ j < opens.length ∧
        simCheck (opens.getD i none) (opens.getD j none) thr = some s := by
  simp only [simPairs, List.mem_flatMap, List.mem_filterMap, List.mem_range]
  constructor
  · rintro ⟨i', hi', j', hj', h⟩
    split_ifs at h with hij
    · rw [Option.map_eq_some'] at h
      obtain ⟨s', hs', heq⟩ := h
      simp only [Prod.mk.injEq] at heq
      obtain ⟨rfl, rfl, rfl⟩ := heq
      exact ⟨hij, hj', hs'⟩
  · rintro ⟨hij, hj, hs⟩
    exact ⟨i, Nat.lt_trans hij hj, j, hj, by rw [if_pos hij, hs]; rfl⟩

/-- C1. For every pair of observations (i, j) with i before j in iteration
order, a SIMILAR edge i→j is emitted if and only if
`|open_i − open_j| < thr` (default thr = `SIMILAR_THRESHOLD` = 0.0005),
and every emitted SIMILAR edge carries weight
`similarity = 1 / (|open_i − open_j| + ε)` with `ε = 1e-6`, which is
strictly positive (and, the denominator being strictly positive, a
well-defined finite rational). -/
theorem c1_similarity_edges (opens : List (Option ℚ)) (thr : ℚ) :
    (∀ i j a b, opens.getD i none = some a → opens.getD j none = some b →
      i < j → j < opens.length →
      ((∃ s, (i, j, s) ∈ simPairs opens thr) ↔ |a - b| < thr)) ∧
    (∀ i j s, (i, j, s) ∈ simPairs opens thr →
      i < j ∧ j < opens.length ∧
      ∃ a b, opens.getD i none = some a ∧ opens.getD j none = some b ∧
        |a - b| < thr ∧ s = 1 / (|a - b| + simEps) ∧
        0 < |a - b| + simEps ∧ 0 < s) := by
  constructor
  · intro i j a b ha hb hij hj
    constructor
    · rintro ⟨s, hs⟩
      rw [mem_simPairs] at hs
      obtain ⟨-, -, hsc⟩ := hs
      rw [simCheck_eq_some] at hsc
      obtain ⟨x, y, hx, hy, hlt, -⟩ := hsc
      rw [ha] at hx
      rw [hb] at hy
      cases hx; cases hy
      exact hlt
    · intro hlt
      refine ⟨1 / (|a - b| + simEps), ?_⟩
      rw [mem_simPairs]
      refine ⟨hij, hj, ?_⟩
      rw [simCheck_eq_some]
      exact ⟨a, b, ha, hb, hlt, rfl⟩
  · intro i j s hs
    rw [mem_simPairs] at hs
    obtain ⟨hij, hj, hsc⟩ := hs
    rw [simCheck_eq_some] at hsc
    obtain ⟨a, b, ha, hb, hlt, hsval⟩ := hsc
    have hden : 0 < |a - b| + simEps := by
      have := abs_nonneg (a - b)
      have : (0 : ℚ) < simEps := by norm_num [simEps]
      positivity
    refine ⟨hij, hj, a, b, ha, hb, hlt, hsval, hden, ?_⟩
    rw [hsval]
    exact div_pos one_pos hden

/-- C1 witness: on the concrete open-price list `[1, 1]` the theorem's
iff instantiates at the pair (0, 1), and the emitted edge carries the
strictly positive weight `1 / (0 + 1e-6) = 1000000`. -/
theorem c1_similarity_edges_witness :
    ((∃ s, (0, 1, s) ∈
        simPairs [some 1, some 1] SIMILAR_THRESHOLD) ↔
      |(1 : ℚ) - 1| < SIMILAR_THRESHOLD) ∧
    (0 < (1 : ℕ) ∧ 1 < 2 ∧ ∃ a b,
      ([some 1, some 1] : List (Option ℚ)).getD 0 none = some a ∧
      ([some 1, some 1] : List (Option ℚ)).getD 1 none = some b ∧
      |a - b| < SIMILAR_THRESHOLD ∧
      (1000000 : ℚ) = 1 / (|a - b| + simEps) ∧
      0 < |a - b| + simEps ∧ 0 < (1000000 : ℚ)) := by
  constructor
  · exact (c1_similarity_edges [some 1, some 1]
      SIMILAR_THRESHOLD).1 0 1 1 1 rfl rfl (by decide) (by decide)
  · refine (c1_similarity_edges [some 1, some 1]
      SIMILAR_THRESHOLD).2 0 1 1000000 (mem_simPairs.mpr ⟨?_, ?_, ?_⟩)
    · decide
    · decide
    · show simCheck (some 1) (some 1) SIMILAR_THRESHOLD = some 1000000
      rw [simCheck]
      norm_num [SIMILAR_THRESHOLD, simEps]

/-! ## Lemmas about the chronological NEXT chain -/

lemma walkNext_zip :
    ∀ (s : List ℕ) (a : ℕ) (pre : List (ℕ × ℕ)),
      (a :: s).Nodup → (∀ p ∈ pre, p.1 ∉ a :: s) →
      walkNext (pre ++ (a :: s).zip s) s.length a = a :: s := by
  intro s
  induction s with
  | nil => intro a pre _ _; rfl
  | cons b t ih =>
    intro a pre hnd hpre
    have hstep :
        stepNext (pre ++ (a, b) :: (b :: t).zip t) a = some b := by
      rw [stepNext]
      have hprenone : pre.find? (fun e => e.1 == a) = none := by
        rw [List.find?_eq_none]
        intro p hp
        simp only [beq_iff_eq]
        intro hpa
        exact hpre p hp (hpa ▸ List.mem_cons_self a _)
      rw [List.find?_append, hprenone]
      simp [List.find?]
    show walkNext (pre ++ (a, b) :: (b :: t).zip t) (t.length + 1) a =
      a :: b :: t
    rw [walkNext, hstep]
    have hassoc : pre ++ (a, b) :: (b :: t).zip t =
        (pre ++ [(a, b)]) ++ (b :: t).zip t := by
      simp [List.append_assoc]
    rw [hassoc]
    have htail := ih b (pre ++ [(a, b)]) hnd.of_cons ?_
    · show a :: walkNext ((pre ++ [(a, b)]) ++ (b :: t).zip t) t.length b =
        a :: b :: t
      rw [htail]
    · intro p hp
      rcases List.mem_append.mp hp with h1 | h1
      · exact fun hm => hpre p h1 (List.mem_cons_of_mem a hm)
      · rcases List.mem_singleton.mp h1 with rfl
        exact (List.nodup_cons.mp hnd).1

lemma zip_tail_lt {l : List ℕ} (h : List.Sorted (· < ·) l) :
    ∀ e ∈ l.zip l.tail, e.1 < e.2 := by
  induction l with
  | nil => simp
  | cons a t ih =>
    cases t with
    | nil => simp
    | cons b u =>
      intro e he
      rcases List.mem_cons.mp he with rfl | he'
      · exact (List.sorted_cons.mp h).1 b (List.mem_cons_self ..)
      · exact ih (List.sorted_cons.mp h).2 e he'

/-- C2. For every non-empty annotated collection whose timestamps are
pairwise distinct (the data-model identity invariant), the NEXT edge set
has exactly (number of nodes − 1) edges; the chronologically sorted
identifier list is a duplicate-free permutation of all node identifiers,
strictly increasing (so each edge goes to the observation with the
next-larger timestamp, there are no branches and no cycles); and following
NEXT edges from the earliest node visits every node exactly once — the
walk from the head of the sorted order is exactly the sorted order. -/
theorem c2_next_chain (data : List GObs) (hne : data ≠ [])
    (hnd : (data.map (·.ts)).Nodup) :
    (nextEdges data).length = data.length - 1 ∧
    (trade_ids data).Perm (data.map (·.ts)) ∧
    List.Sorted (· < ·) (trade_ids data) ∧
    (∀ e ∈ nextEdges data, e.1 < e.2) ∧
    walkNext (nextEdges data) (data.length - 1) ((trade_ids data).headI) =
      trade_ids data := by
  have hperm : (trade_ids data).Perm (data.map (·.ts)) :=
    List.perm_insertionSort _ _
  have hlen : (trade_ids data).length = data.length := by
    rw [hperm.length_eq, List.length_map]
  have hndup : (trade_ids data).Nodup := hperm.nodup_iff.mpr hnd
  have hsortle : List.Sorted (· ≤ ·) (trade_ids data) :=
    List.sorted_insertionSort _ _
  have hsort : List.Sorted (· < ·) (trade_ids data) :=
    hsortle.lt_of_le hndup
  have hlenzip : (nextEdges data).length = data.length - 1 := by
    rw [nextEdges, List.length_zip, List.length_tail, hlen]
    omega
  refine ⟨hlenzip, hperm, hsort, zip_tail_lt hsort, ?_⟩
  obtain ⟨a, s, hts⟩ : ∃ a s, trade_ids data = a :: s := by
    cases h : trade_ids data with
    | nil =>
      exfalso
      apply hne
      have := hlen
      rw [h] at this
      exact List.eq_nil_of_length_eq_zero this.symm
    | cons a s => exact ⟨a, s, rfl⟩
  have hfuel : data.length - 1 = s.length := by
    rw [← hlen, hts]
    simp
  rw [nextEdges, hts, hfuel]
  show walkNext ((a :: s).zip s) s.length a = a :: s
  have := walkNext_zip s a [] (hts ▸ hndup) (by simp)
  simpa using this

/-- C2 witness: a concrete three-observation collection (timestamps 3, 1,
2 in file order); the sorted chain is 1 → 2 → 3 and the walk from the
earliest node visits all three nodes. -/
theorem c2_next_chain_witness :
    ([⟨3, none, none, none, none, none, 0, false, false⟩,
      ⟨1, none, none, none, none, none, 0, false, false⟩,
      ⟨2, none, none, none, none, none, 0, false, false⟩] :
        List GObs) ≠ [] ∧
    (([⟨3, none, none, none, none, none, 0, false, false⟩,
      ⟨1, none, none, none, none, none, 0, false, false⟩,
      ⟨2, none, none, none, none, none, 0, false, false⟩] :
        List GObs).map (·.ts)).Nodup ∧
    (nextEdges
        [⟨3, none, none, none, none, none, 0, false, false⟩,
         ⟨1, none, none, none, none, none, 0, false, false⟩,
         ⟨2, none, none, none, none, none, 0, false, false⟩]).length = 2 := by
  refine ⟨by simp, by decide, ?_⟩
  exact (c2_next_chain
    [⟨3, none, none, none, none, none, 0, false, false⟩,
     ⟨1, none, none, none, none, none, 0, false, false⟩,
     ⟨2, none, none, none, none, none, 0, false, false⟩]
    (by simp) (by decide)).1

/-! ## Lemmas about the return statistics -/

lemma sampleVar_nonneg (l : List ℚ) : 0 ≤ sampleVar l := by
  rw [sampleVar]
  apply div_nonneg
  · apply List.sum_nonneg
    intro x hx
    obtain ⟨y, -, rfl⟩ := List.mem_map.mp hx
    exact sq_nonneg _
  · exact_mod_cast Nat.zero_le _

lemma sum_sq_zero {m : ℚ} :
    ∀ {l : List ℚ}, (l.map (fun x => (x - m) ^ 2)).sum = 0 →
      ∀ x ∈ l, x = m := by
  intro l
  induction l with
  | nil => simp
  | cons a t ih =>
    intro h x hx
    simp only [List.map_cons, List.sum_cons] at h
    have h1 : 0 ≤ (a - m) ^ 2 := sq_nonneg _
    have h2 : 0 ≤ (t.map (fun x => (x - m) ^ 2)).sum := by
      apply List.sum_nonneg
      intro y hy
      obtain ⟨z, -, rfl⟩ := List.mem_map.mp hy
      exact sq_nonneg _
    rcases List.mem_cons.mp hx with rfl | hx'
    · have hz : (x - m) ^ 2 = 0 := by nlinarith
      have hxm : x - m = 0 :=
        (pow_eq_zero_iff (Nat.succ_ne_zero 1)).mp hz
      linarith
    · exact ih (by nlinarith) x hx'

lemma sampleVar_zero_all {l : List ℚ} (h : sampleVar l = 0) :
    ∀ x ∈ l, x = meanQ l := by
  match l with
  | [] => simp
  | [a] =>
    intro x hx
    rcases List.mem_singleton.mp hx with rfl
    simp [meanQ]
  | a :: b :: t =>
    intro x hx
    rw [sampleVar] at h
    have hd : (((a :: b :: t).length - 1 : ℕ) : ℚ) ≠ 0 := by
      have h1 : (a :: b :: t).length - 1 = t.length + 1 := by simp
      rw [h1]
      exact_mod_cast Nat.succ_ne_zero t.length
    rcases div_eq_zero_iff.mp h with hsum | hzero
    · exact sum_sq_zero hsum x hx
    · exact absurd hzero hd

lemma ret_mem_retSeries {data : List Obs} {t : ℚ} {o : AObs}
    (h : o ∈ detect_outliers data t) : o.ret ∈ retSeries data := by
  rw [detect_outliers, List.mem_map] at h
  obtain ⟨p, hp, rfl⟩ := h
  exact List.mem_map.mpr ⟨p, hp, rfl⟩

lemma is_outlier_spec {data : List Obs} {t : ℚ} {o : AObs}
    (h : o ∈ detect_outliers data t) :
    o.is_outlier = decide ((o.ret - meanQ (retSeries data)) ^ 2 >
      t ^ 2 * sampleVar (retSeries data)) := by
  rw [detect_outliers, List.mem_map] at h
  obtain ⟨p, hp, rfl⟩ := h
  rfl

lemma abs_div_sqrt_gt {x v t : ℝ} (hv : 0 < v) (ht : 0 ≤ t) :
    |x / Real.sqrt v| > t ↔ x ^ 2 > t ^ 2 * v := by
  have hs : 0 < Real.sqrt v := Real.sqrt_pos.mpr hv
  rw [abs_div, abs_of_pos hs, gt_iff_lt, lt_div_iff₀ hs, gt_iff_lt]
  constructor
  · intro h
    have h0 : 0 ≤ t * Real.sqrt v := mul_nonneg ht hs.le
    have hsq : (t * Real.sqrt v) ^ 2 < |x| ^ 2 := by nlinarith [abs_nonneg x]
    calc t ^ 2 * v = (t * Real.sqrt v) ^ 2 := by
          rw [mul_pow, Real.sq_sqrt hv.le]
      _ < |x| ^ 2 := hsq
      _ = x ^ 2 := sq_abs x
  · intro h
    have hsq : (t * Real.sqrt v) ^ 2 < |x| ^ 2 := by
      rw [mul_pow, Real.sq_sqrt hv.le, sq_abs]
      exact h
    have h0 : 0 ≤ t * Real.sqrt v := mul_nonneg ht hs.le
    nlinarith [abs_nonneg x]

/-- C3. For every observation retained by the annotator, `is_outlier` is
true if and only if `|z_score| > threshold` (default 3), where
`z_score = (Return − mean) / std` with mean and std computed once over the
entire return series of the loaded dataset (`std = sqrt` of the
`ddof = 1` variance `Series.std` uses).  In the degenerate zero-variance
case the source's z-score is NaN and the flag is false; the iff still
holds because the retained return then equals the mean. -/
theorem c3_outlier_iff (data : List Obs) (t : ℚ) (ht : 0 ≤ t) (o : AObs)
    (ho : o ∈ detect_outliers data t) :
    (o.is_outlier = true ↔
      |(((o.ret : ℝ)) - ((meanQ (retSeries data) : ℚ) : ℝ)) /
          Real.sqrt (((sampleVar (retSeries data) : ℚ) : ℝ))| > (t : ℝ)) := by
  rw [is_outlier_spec ho, decide_eq_true_eq]
  have hv0 : 0 ≤ sampleVar (retSeries data) := sampleVar_nonneg _
  rcases eq_or_lt_of_le hv0 with hv | hv
  · have hret : o.ret = meanQ (retSeries data) :=
      sampleVar_zero_all hv.symm _ (ret_mem_retSeries ho)
    constructor
    · intro h
      exfalso
      rw [← hv, mul_zero, hret] at h
      simp at h
    · intro h
      exfalso
      rw [hret] at h
      simp only [sub_self, zero_div, abs_zero] at h
      exact absurd h (not_lt.mpr (by exact_mod_cast ht))
  · have hb := abs_div_sqrt_gt
      (x := ((o.ret : ℝ) - ((meanQ (retSeries data) : ℚ) : ℝ)))
      (v := ((sampleVar (retSeries data) : ℚ) : ℝ)) (t := (t : ℝ))
      (by exact_mod_cast hv) (by exact_mod_cast ht)
    rw [hb]
    constructor
    · intro h
      exact_mod_cast h
    · intro h
      exact_mod_cast h

/-- C3 witness: a two-row dataset with closes 1, 2; the single retained
observation has return 1, the return series is [1], its variance is
degenerate, and the flag is false, matching `|z| > 3` being false. -/
theorem c3_outlier_iff_witness :
    ((⟨1, some 1, some 1, some 1, some 2, some 1, 1, false⟩ : AObs).is_outlier
        = true ↔
      |((((⟨1, some 1, some 1, some 1, some 2, some 1, 1, false⟩ :
            AObs).ret : ℝ)) -
          ((meanQ (retSeries
            [⟨0, some 1, some 1, some 1, some 1, some 1⟩,
             ⟨1, some 1, some 1, some 1, some 2, some 1⟩]) : ℚ) : ℝ)) /
          Real.sqrt (((sampleVar (retSeries
            [⟨0, some 1, some 1, some 1, some 1, some 1⟩,
             ⟨1, some 1, some 1, some 1, some 2, some 1⟩]) : ℚ) : ℝ))| >
        ((3 : ℚ) : ℝ)) := by
  refine c3_outlier_iff
    [⟨0, some 1, some 1, some 1, some 1, some 1⟩,
     ⟨1, some 1, some 1, some 1, some 2, some 1⟩] 3 (by norm_num)
    ⟨1, some 1, some 1, some 1, some 2, some 1, 1, false⟩ ?_
  have hlist : detect_outliers
      [⟨0, some 1, some 1, some 1, some 1, some 1⟩,
       ⟨1, some 1, some 1, some 1, some 2, some 1⟩] 3 =
      [⟨1, some 1, some 1, some 1, some 2, some 1, 1, false⟩] := by
    norm_num [detect_outliers, withReturns, withReturnsAux, pctChange,
      retSeries, meanQ, sampleVar]
  rw [hlist]
  exact List.mem_singleton.mpr rfl

/-- C7. If the return series has zero variance (all returns identical),
the annotator completes without a division fault: in the source the
z-score column is NaN (0/0 elementwise) and `NaN > threshold` is False,
so every retained observation is flagged not-outlier; the embedding
proves exactly this definite policy. -/
theorem c7_zero_variance_policy (data : List Obs) (t : ℚ)
    (hvar : sampleVar (retSeries data) = 0) :
    ∀ o ∈ detect_outliers data t, o.is_outlier = false := by
  intro o ho
  rw [is_outlier_spec ho, decide_eq_false_iff_not, hvar, mul_zero]
  have hret : o.ret = meanQ (retSeries data) :=
    sampleVar_zero_all hvar _ (ret_mem_retSeries ho)
  rw [hret]
  simp

/-- C7 witness: closes 1, 2, 4 give the identical returns [1, 1]
(variance 0); the retained observation with timestamp 1 is flagged
not-outlier. -/
theorem c7_zero_variance_policy_witness :
    (⟨1, some 1, some 1, some 1, some 2, some 1, 1, false⟩ : AObs).is_outlier
      = false := by
  have happ := c7_zero_variance_policy
    [⟨0, some 1, some 1, some 1, some 1, some 1⟩,
     ⟨1, some 1, some 1, some 1, some 2, some 1⟩,
     ⟨2, some 1, some 1, some 1, some 4, some 1⟩] 3
    (by norm_num [sampleVar, retSeries, withReturns, withReturnsAux,
      pctChange, meanQ])
  apply happ
  have hlist : detect_outliers
      [⟨0, some 1, some 1, some 1, some 1, some 1⟩,
       ⟨1, some 1, some 1, some 1, some 2, some 1⟩,
       ⟨2, some 1, some 1, some 1, some 4, some 1⟩] 3 =
      [⟨1, some 1, some 1, some 1, some 2, some 1, 1, false⟩,
       ⟨2, some 1, some 1, some 1, some 4, some 1, 1, false⟩] := by
    norm_num [detect_outliers, withReturns, withReturnsAux, pctChange,
      retSeries, meanQ, sampleVar]
  rw [hlist]
  simp

/-! ## Lemmas about the guideline-deviation flag -/

lemma guideline_fields {data : List AObs} {o : GObs}
    (h : o ∈ compute_guideline_deviation data) :
    o.deviates_guideline =
      ((optLt o.volume (quantileQ (volSeries data) (5 / 100)) ||
        optGt o.volume (quantileQ (volSeries data) (95 / 100))) ||
      decide ((o.ret - meanQ (aretSeries data)) ^ 2 >
        4 * sampleVar (aretSeries data))) := by
  rw [compute_guideline_deviation, List.mem_map] at h
  obtain ⟨a, ha, rfl⟩ := h
  rfl

lemma band_sqrt_iff {y m v : ℝ} (hv : 0 ≤ v) :
    (y < m - 2 * Real.sqrt v ∨ y > m + 2 * Real.sqrt v) ↔
      (y - m) ^ 2 > 4 * v := by
  constructor
  · rintro (h | h)
    · nlinarith [Real.sq_sqrt hv, Real.sqrt_nonneg v]
    · nlinarith [Real.sq_sqrt hv, Real.sqrt_nonneg v]
  · intro h
    rcases le_or_lt y m with hy | hy
    · left
      nlinarith [Real.sq_sqrt hv, Real.sqrt_nonneg v,
        sq_nonneg (y - m + 2 * Real.sqrt v)]
    · right
      nlinarith [Real.sq_sqrt hv, Real.sqrt_nonneg v,
        sq_nonneg (y - m - 2 * Real.sqrt v)]

/-- C4. For every observation (with a numeric volume) in the
persistence-path annotation, `deviates_guideline` is true if and only if
its volume lies outside the `[P5(volume), P95(volume)]` band of the whole
dataset's volumes, or its return lies outside
`[mean − 2·std, mean + 2·std]`, with all bounds computed once over the
whole annotated set (`std = sqrt` of the `ddof = 1` sample variance). -/
theorem c4_guideline_iff (data : List AObs) (o : GObs)
    (ho : o ∈ compute_guideline_deviation data) (v0 : ℚ)
    (hv : o.volume = some v0) :
    (o.deviates_guideline = true ↔
      ((v0 < quantileQ (volSeries data) (5 / 100) ∨
        v0 > quantileQ (volSeries data) (95 / 100)) ∨
       (((o.ret : ℝ)) <
          ((meanQ (aretSeries data) : ℚ) : ℝ) -
            2 * Real.sqrt (((sampleVar (aretSeries data) : ℚ) : ℝ)) ∨
        ((o.ret : ℝ)) >
          ((meanQ (aretSeries data) : ℚ) : ℝ) +
            2 * Real.sqrt (((sampleVar (aretSeries data) : ℚ) : ℝ))))) := by
  rw [guideline_fields ho, hv]
  simp only [Bool.or_eq_true, optLt, optGt, decide_eq_true_eq, gt_iff_lt]
  apply or_congr Iff.rfl
  have hv0 : (0 : ℝ) ≤ ((sampleVar (aretSeries data) : ℚ) : ℝ) := by
    exact_mod_cast sampleVar_nonneg (aretSeries data)
  have hb := @band_sqrt_iff ((o.ret : ℝ))
    (((meanQ (aretSeries data) : ℚ)) : ℝ)
    (((sampleVar (aretSeries data) : ℚ)) : ℝ) hv0
  simp only [gt_iff_lt] at hb
  rw [hb]
  constructor
  · intro h
    exact_mod_cast h
  · intro h
    exact_mod_cast h

/-- C4 witness: a single-row annotated set with volume 10 and return 0;
both quantile bounds collapse to 10 and the variance is degenerate, so
the flag and both band conditions are false, and the iff instantiates. -/
theorem c4_guideline_iff_witness :
    ((⟨1, none, none, none, none, some 10, 0, false, false⟩ :
        GObs).deviates_guideline = true ↔
      (((10 : ℚ) < quantileQ (volSeries
          [⟨1, none, none, none, none, some 10, 0, false⟩]) (5 / 100) ∨
        (10 : ℚ) > quantileQ (volSeries
          [⟨1, none, none, none, none, some 10, 0, false⟩]) (95 / 100)) ∨
       ((((⟨1, none, none, none, none, some 10, 0, false, false⟩ :
            GObs).ret : ℝ)) <
          ((meanQ (aretSeries
            [⟨1, none, none, none, none, some 10, 0, false⟩]) : ℚ) : ℝ) -
            2 * Real.sqrt (((sampleVar (aretSeries
              [⟨1, none, none, none, none, some 10, 0, false⟩]) : ℚ) : ℝ)) ∨
        (((⟨1, none, none, none, none, some 10, 0, false, false⟩ :
            GObs).ret : ℝ)) >
          ((meanQ (aretSeries
            [⟨1, none, none, none, none, some 10, 0, false⟩]) : ℚ) : ℝ) +
            2 * Real.sqrt (((sampleVar (aretSeries
              [⟨1, none, none, none, none, some 10, 0, false⟩]) : ℚ) : ℝ))))) := by
  refine c4_guideline_iff
    [⟨1, none, none, none, none, some 10, 0, false⟩]
    ⟨1, none, none, none, none, some 10, 0, false, false⟩ ?_ 10 rfl
  have hlist : compute_guideline_deviation
      [⟨1, none, none, none, none, some 10, 0, false⟩] =
      [⟨1, none, none, none, none, some 10, 0, false, false⟩] := by
    have hq : ∀ q : ℚ, quantileQ (volSeries
        [⟨1, none, none, none, none, some 10, 0, false⟩]) q = 10 := by
      intro q
      norm_num [volSeries, quantileQ, List.insertionSort, List.orderedInsert]
    norm_num [compute_guideline_deviation, hq, optLt, optGt, aretSeries,
      meanQ, sampleVar]
  rw [hlist]
  exact List.mem_singleton.mpr rfl

/-! ## The return is taken against the predecessor in iteration order -/

lemma withReturnsAux_allSome :
    ∀ (ds : List Obs) (d : Obs), d.close.isSome = true →
      (∀ o ∈ ds, o.close.isSome = true) →
      withReturnsAux d.close ds =
        (ds.zip (d :: ds)).map (fun q =>
          (q.1, ((q.1.close.getD 0) - (q.2.close.getD 0)) /
            (q.2.close.getD 0))) := by
  intro ds
  induction ds with
  | nil => intro d _ _; rfl
  | cons o rest ih =>
    intro d hd hall
    obtain ⟨p, hp⟩ := Option.isSome_iff_exists.mp hd
    obtain ⟨c, hc⟩ := Option.isSome_iff_exists.mp
      (hall o (List.mem_cons_self o rest))
    rw [withReturnsAux]
    have hpc : pctChange o d.close = some ((c - p) / p) := by
      simp only [pctChange, hp, hc]
    rw [hpc]
    have hrest := ih o (by rw [hc]; rfl)
      (fun x hx => hall x (List.mem_cons_of_mem o hx))
    simp only [List.zip_cons_cons, List.map_cons]
    rw [hrest, hc, hp]
    rfl

lemma withReturns_allSome (data : List Obs)
    (hc : ∀ o ∈ data, o.close.isSome = true) :
    withReturns data =
      (data.tail.zip data).map (fun q =>
        (q.1, ((q.1.close.getD 0) - (q.2.close.getD 0)) /
          (q.2.close.getD 0))) := by
  cases data with
  | nil => rfl
  | cons d ds =>
    rw [withReturns, withReturnsAux]
    have hpc : pctChange d none = none := rfl
    rw [hpc]
    exact withReturnsAux_allSome ds d (hc d (List.mem_cons_self d ds))
      (fun x hx => hc x (List.mem_cons_of_mem d hx))

lemma trade_id_mem {l : List GObs} {tr : Trade}
    (h : tr ∈ tradeNodes l) : tr.trade_id ∈ l.map (·.ts) := by
  rw [tradeNodes, List.mem_map] at h
  obtain ⟨o, ho, rfl⟩ := h
  exact List.mem_map.mpr ⟨o, ho, rfl⟩

lemma guideline_map_ts (l : List AObs) :
    (compute_guideline_deviation l).map (·.ts) = l.map (·.ts) := by
  rw [compute_guideline_deviation, List.map_map]
  rfl

/-- C5 counterexample: cleaned data whose iteration (file) order is
reverse-chronological — timestamps 2, 1 with closes 4, 2.  The claim
predicts the first chronological observation (timestamp 1) is dropped,
and timestamp 2 carries return (4 − 2)/2 = 1 and a node.  The code
instead drops the first row in iteration order (timestamp 2): the sole
retained observation and the sole graph node have timestamp 1, with
return (2 − 4)/4 = −1/2 computed against the iteration-order
predecessor. -/
theorem c5_counterexample :
    (detect_outliers
        [⟨2, some 1, some 1, some 1, some 4, some 1⟩,
         ⟨1, some 1, some 1, some 1, some 2, some 1⟩] 3).map
      (fun o => (o.ts, o.ret)) = [(1, -(1 / 2))] ∧
    (tradeNodes (compute_guideline_deviation (detect_outliers
        [⟨2, some 1, some 1, some 1, some 4, some 1⟩,
         ⟨1, some 1, some 1, some 1, some 2, some 1⟩] 3))).map
      (·.trade_id) = [1] := by
  have h1 : detect_outliers
      [⟨2, some 1, some 1, some 1, some 4, some 1⟩,
       ⟨1, some 1, some 1, some 1, some 2, some 1⟩] 3 =
      [⟨1, some 1, some 1, some 1, some 2, some 1, -(1 / 2), false⟩] := by
    norm_num [detect_outliers, withReturns, withReturnsAux, pctChange,
      retSeries, meanQ, sampleVar]
  rw [h1]
  constructor
  · norm_num
  · have hq : ∀ q : ℚ, quantileQ (volSeries
        [⟨1, some 1, some 1, some 1, some 2, some 1, -(1 / 2), false⟩]) q
        = 1 := by
      intro q
      norm_num [volSeries, quantileQ, List.insertionSort, List.orderedInsert]
    norm_num [compute_guideline_deviation, tradeNodes, hq, optLt, optGt,
      aretSeries, meanQ, sampleVar]

/-- C5 amended: `return_t = (close_t − close_{t−1}) / close_{t−1}` where
t−1 is the previous observation in *iteration (row) order* — which is the
chronological predecessor only when the dataset is already sorted by
timestamp.  The first observation in iteration order has no return, is
dropped, and (when its timestamp does not recur later in the data) no
graph node exists for its timestamp. -/
theorem c5_amended (data : List Obs) (t : ℚ)
    (hc : ∀ o ∈ data, o.close.isSome = true) :
    ((detect_outliers data t).length = data.length - 1) ∧
    ((detect_outliers data t).map (fun o => (o.ts, o.ret)) =
      (data.tail.zip data).map (fun q =>
        (q.1.ts, ((q.1.close.getD 0) - (q.2.close.getD 0)) /
          (q.2.close.getD 0)))) ∧
    (∀ hd, data.head? = some hd → hd.ts ∉ data.tail.map (·.ts) →
      ∀ tr ∈ tradeNodes (compute_guideline_deviation
          (detect_outliers data t)),
        tr.trade_id ≠ hd.ts) := by
  have hwr := withReturns_allSome data hc
  have hlen : (detect_outliers data t).length = data.length - 1 := by
    rw [detect_outliers, List.length_map, hwr, List.length_map,
      List.length_zip, List.length_tail]
    omega
  have hmap : (detect_outliers data t).map (fun o => (o.ts, o.ret)) =
      (data.tail.zip data).map (fun q =>
        (q.1.ts, ((q.1.close.getD 0) - (q.2.close.getD 0)) /
          (q.2.close.getD 0))) := by
    rw [detect_outliers, List.map_map, hwr, List.map_map]
    rfl
  refine ⟨hlen, hmap, ?_⟩
  intro hd hhd hnot tr htr
  intro heq
  apply hnot
  have hts : (detect_outliers data t).map (·.ts) = data.tail.map (·.ts) := by
    have h1 : (detect_outliers data t).map (·.ts) =
        ((detect_outliers data t).map (fun o => (o.ts, o.ret))).map
          Prod.fst := by
      rw [List.map_map]
      rfl
    rw [h1, hmap, List.map_map]
    have h2 : data.tail.length ≤ data.length := by
      rw [List.length_tail]
      omega
    calc (data.tail.zip data).map
          (Prod.fst ∘ fun q =>
            (q.1.ts, ((q.1.close.getD 0) - (q.2.close.getD 0)) /
              (q.2.close.getD 0)))
        = (data.tail.zip data).map ((·.ts) ∘ Prod.fst) := by rfl
      _ = ((data.tail.zip data).map Prod.fst).map (·.ts) := by
          rw [List.map_map]
      _ = data.tail.map (·.ts) := by rw [List.map_fst_zip _ _ h2]
  have := trade_id_mem htr
  rw [guideline_map_ts, hts] at this
  rw [← heq]
  exact this

/-- C5 amended witness: the reverse-chronological two-row dataset has
2 − 1 = 1 retained observation. -/
theorem c5_amended_witness :
    (detect_outliers
        [⟨2, some 1, some 1, some 1, some 4, some 1⟩,
         ⟨1, some 1, some 1, some 1, some 2, some 1⟩] 3).length = 2 - 1 :=
  (c5_amended
    [⟨2, some 1, some 1, some 1, some 4, some 1⟩,
     ⟨1, some 1, some 1, some 1, some 2, some 1⟩] 3 (by decide)).1

/-! ## Lemmas about the cleaning stage -/

lemma dedupRows_subset :
    ∀ (l : List RawRow), ∀ x ∈ dedupRows l, x ∈ l := by
  intro l
  induction l using dedupRows.induct with
  | case1 => simp [dedupRows]
  | case2 r rest ih =>
    intro x hx
    rw [dedupRows] at hx
    rcases List.mem_cons.mp hx with rfl | hx'
    · exact List.mem_cons_self x rest
    · exact List.mem_cons_of_mem r (List.mem_of_mem_filter (ih x hx'))

lemma dedupRows_nodup (l : List RawRow) : (dedupRows l).Nodup := by
  induction l using dedupRows.induct with
  | case1 => simp [dedupRows]
  | case2 r rest ih =>
    rw [dedupRows]
    refine List.nodup_cons.mpr ⟨?_, ih⟩
    intro hr
    have hmem := dedupRows_subset _ _ hr
    have := List.of_mem_filter hmem
    simp at this

/-- C6 counterexample: two raw rows share timestamp 1 and agree in every
field except the open cell, where both fail numeric coercion (two
different unparsable strings).  `drop_duplicates` runs on the raw rows
(before coercion) and keeps both; after coercion the cleaned collection
contains two observations identical in all of (timestamp, open, high,
low, close, volume), and the timestamp 1 occurs twice — both the
all-fields-distinctness and the timestamp-uniqueness parts of the claim
fail. -/
theorem c6_counterexample :
    load_and_clean_data
        [⟨1, .bad 0, .num 1, .num 1, .num 1, .num 5⟩,
         ⟨1, .bad 1, .num 1, .num 1, .num 1, .num 5⟩] =
      [⟨1, none, some 1, some 1, some 1, some 5⟩,
       ⟨1, none, some 1, some 1, some 1, some 5⟩] ∧
    ¬ ((load_and_clean_data
        [⟨1, .bad 0, .num 1, .num 1, .num 1, .num 5⟩,
         ⟨1, .bad 1, .num 1, .num 1, .num 1, .num 5⟩]).map (·.ts)).Nodup ∧
    ¬ (load_and_clean_data
        [⟨1, .bad 0, .num 1, .num 1, .num 1, .num 5⟩,
         ⟨1, .bad 1, .num 1, .num 1, .num 1, .num 5⟩]).Nodup := by
  have h1 : load_and_clean_data
      [⟨1, .bad 0, .num 1, .num 1, .num 1, .num 5⟩,
       ⟨1, .bad 1, .num 1, .num 1, .num 1, .num 5⟩] =
      [⟨1, none, some 1, some 1, some 1, some 5⟩,
       ⟨1, none, some 1, some 1, some 1, some 5⟩] := by
    norm_num [load_and_clean_data, dedupRows, coerceRow, toNumeric]
  refine ⟨h1, ?_, ?_⟩
  · rw [h1]
    norm_num
  · rw [h1]
    norm_num

/-- C6 amended: the cleaned collection contains no observation whose
volume coerced to exactly 0, and deduplication is guaranteed only at the
raw-row level — rows identical as raw rows are collapsed (the retained
raw rows are pairwise distinct), but observations may coincide after
numeric coercion and timestamps may repeat, so the timestamp is not
guaranteed unique. -/
theorem c6_amended (rs : List RawRow) :
    (∀ o ∈ load_and_clean_data rs, o.volume ≠ some 0) ∧
    (dedupRows rs).Nodup := by
  constructor
  · intro o ho
    have := List.of_mem_filter ho
    exact of_decide_eq_true this
  · exact dedupRows_nodup rs

/-- C6 amended witness: on a concrete two-row input with a duplicate, the
retained row's volume is nonzero and the deduplicated raw rows are
distinct. -/
theorem c6_amended_witness :
    ((⟨1, some 1, some 1, some 1, some 1, some 5⟩ : Obs).volume ≠ some 0) ∧
    (dedupRows
      [⟨1, .num 1, .num 1, .num 1, .num 1, .num 5⟩,
       ⟨1, .num 1, .num 1, .num 1, .num 1, .num 5⟩]).Nodup := by
  constructor
  · refine (c6_amended
      [⟨1, .num 1, .num 1, .num 1, .num 1, .num 5⟩,
       ⟨1, .num 1, .num 1, .num 1, .num 1, .num 5⟩]).1
      ⟨1, some 1, some 1, some 1, some 1, some 5⟩ ?_
    have h1 : load_and_clean_data
        [⟨1, .num 1, .num 1, .num 1, .num 1, .num 5⟩,
         ⟨1, .num 1, .num 1, .num 1, .num 1, .num 5⟩] =
        [⟨1, some 1, some 1, some 1, some 1, some 5⟩] := by
      norm_num [load_and_clean_data, dedupRows, coerceRow, toNumeric]
    rw [h1]
    norm_num
  · exact (c6_amended
      [⟨1, .num 1, .num 1, .num 1, .num 1, .num 5⟩,
       ⟨1, .num 1, .num 1, .num 1, .num 1, .num 5⟩]).2

/-! ## A missing volume survives cleaning; nodes for retained rows -/

lemma tail_get? {α : Type} (l : List α) (i : ℕ) :
    l.tail.get? i = l.get? (i + 1) := by
  cases l <;> simp [List.get?]

lemma node_exists {l : List AObs} {o : AObs} (ho : o ∈ l) :
    ∃ tr ∈ tradeNodes (compute_guideline_deviation l),
      tr.trade_id = o.ts ∧ tr.volume = o.volume := by
  rw [tradeNodes, compute_guideline_deviation, List.map_map]
  exact ⟨_, List.mem_map.mpr ⟨o, ho, rfl⟩, rfl, rfl⟩

/-- C10 counterexample: a single raw row whose volume cell fails
coercion.  The cleaning stage retains it (missing compares unequal to 0),
but it is the first row in iteration order, so the annotator drops it for
lack of a return and the graph builder creates no node at all — the row
does not become a graph node, contradicting the claim's conclusion. -/
theorem c10_counterexample :
    load_and_clean_data [⟨1, .num 1, .num 1, .num 1, .num 1, .bad 0⟩] =
      [⟨1, some 1, some 1, some 1, some 1, none⟩] ∧
    tradeNodes (compute_guideline_deviation (detect_outliers
      (load_and_clean_data [⟨1, .num 1, .num 1, .num 1, .num 1, .bad 0⟩])
      3)) = [] := by
  have h1 : load_and_clean_data
      [⟨1, .num 1, .num 1, .num 1, .num 1, .bad 0⟩] =
      [⟨1, some 1, some 1, some 1, some 1, none⟩] := by
    norm_num [load_and_clean_data, dedupRows, coerceRow, toNumeric,
      reduceCtorEq]
    intro h
    exact Option.noConfusion h
  refine ⟨h1, ?_⟩
  rw [h1]
  rfl

/-- C10 amended: a row whose Volume fails coercion is retained by the
cleaning stage (the zero-volume filter removes only values exactly 0 and
missing compares unequal to 0), so it reaches the annotator; and provided
it is not the first row of the cleaned frame in iteration order (so its
return is defined; all closes assumed coercible), it reaches the graph
builder and becomes a graph node with a missing volume property. -/
theorem c10_amended (rs : List RawRow) (r : RawRow) (t : ℚ)
    (h1 : r ∈ dedupRows rs)
    (h2 : toNumeric r.volume = none)
    (hcl : ∀ o ∈ load_and_clean_data rs, o.close.isSome = true) :
    coerceRow r ∈ load_and_clean_data rs ∧
    (∀ i, (load_and_clean_data rs).get? (i + 1) = some (coerceRow r) →
      ∃ tr ∈ tradeNodes (compute_guideline_deviation
          (detect_outliers (load_and_clean_data rs) t)),
        tr.trade_id = r.ts ∧ tr.volume = none) := by
  have hvol : (coerceRow r).volume = none := h2
  constructor
  · rw [load_and_clean_data]
    refine List.mem_filter.mpr ⟨List.mem_map.mpr ⟨r, h1, rfl⟩, ?_⟩
    rw [hvol]
    simp
  · intro i hget
    set data := load_and_clean_data rs with hdata
    have hlt : i + 1 < data.length := by
      by_contra hle
      rw [List.get?_eq_none.mpr (by omega)] at hget
      exact Option.noConfusion hget
    obtain ⟨prev, hprev⟩ : ∃ prev, data.get? i = some prev := by
      cases h : data.get? i with
      | none =>
        rw [List.get?_eq_none] at h
        omega
      | some prev => exact ⟨prev, rfl⟩
    have htail : data.tail.get? i = some (coerceRow r) := by
      rw [tail_get?]
      exact hget
    have hz : (data.tail.zip data).get? i = some (coerceRow r, prev) :=
      (List.get?_zip_eq_some _ _ _ _).mpr ⟨htail, hprev⟩
    have hmemz : (coerceRow r, prev) ∈ data.tail.zip data :=
      List.get?_mem hz
    have hwr := withReturns_allSome data hcl
    have hmemwr : (coerceRow r,
        (((coerceRow r).close.getD 0) - (prev.close.getD 0)) /
          (prev.close.getD 0)) ∈ withReturns data := by
      rw [hwr]
      exact List.mem_map.mpr ⟨(coerceRow r, prev), hmemz, rfl⟩
    have hmemdet : (⟨(coerceRow r).ts, (coerceRow r).open_,
        (coerceRow r).high, (coerceRow r).low, (coerceRow r).close,
        (coerceRow r).volume,
        (((coerceRow r).close.getD 0) - (prev.close.getD 0)) /
          (prev.close.getD 0),
        decide (((((coerceRow r).close.getD 0) - (prev.close.getD 0)) /
            (prev.close.getD 0) - meanQ (retSeries data)) ^ 2 >
          t ^ 2 * sampleVar (retSeries data))⟩ : AObs) ∈
        detect_outliers data t := by
      rw [detect_outliers]
      exact List.mem_map.mpr ⟨_, hmemwr, rfl⟩
    obtain ⟨tr, htr, hid, hv⟩ := node_exists hmemdet
    exact ⟨tr, htr, hid, by rw [hv]; exact hvol⟩

/-- C10 amended witness: a two-row input whose second row has an
uncoercible volume; the coerced row is retained by cleaning and the graph
contains a node with its timestamp and a missing volume. -/
theorem c10_amended_witness :
    coerceRow ⟨2, .num 1, .num 1, .num 1, .num 3, .bad 0⟩ ∈
      load_and_clean_data
        [⟨1, .num 1, .num 1, .num 1, .num 1, .num 5⟩,
         ⟨2, .num 1, .num 1, .num 1, .num 3, .bad 0⟩] ∧
    ∃ tr ∈ tradeNodes (compute_guideline_deviation
        (detect_outliers (load_and_clean_data
          [⟨1, .num 1, .num 1, .num 1, .num 1, .num 5⟩,
           ⟨2, .num 1, .num 1, .num 1, .num 3, .bad 0⟩]) 3)),
      tr.trade_id = 2 ∧ tr.volume = none := by
  have hclean : load_and_clean_data
      [⟨1, .num 1, .num 1, .num 1, .num 1, .num 5⟩,
       ⟨2, .num 1, .num 1, .num 1, .num 3, .bad 0⟩] =
      [⟨1, some 1, some 1, some 1, some 1, some 5⟩,
       ⟨2, some 1, some 1, some 1, some 3, none⟩] := by
    norm_num [load_and_clean_data, dedupRows, coerceRow, toNumeric,
      reduceCtorEq]
    intro h
    exact Option.noConfusion h
  have happ := c10_amended
    [⟨1, .num 1, .num 1, .num 1, .num 1, .num 5⟩,
     ⟨2, .num 1, .num 1, .num 1, .num 3, .bad 0⟩]
    ⟨2, .num 1, .num 1, .num 1, .num 3, .bad 0⟩ 3
    (by norm_num [dedupRows]) rfl
    (by
      rw [hclean]
      intro o ho
      rcases List.mem_cons.mp ho with rfl | ho'
      · rfl
      · rcases List.mem_singleton.mp ho' with rfl
        rfl)
  refine ⟨happ.1, ?_⟩
  apply happ.2 0
  rw [hclean]
  rfl

/-! ## Node writes precede edge writes in the persistence trace -/

lemma node_part_eq (data : List GObs) :
    (tradeNodes data).map (fun t => WriteOp.node t.trade_id) =
      (data.map (·.ts)).map WriteOp.node := by
  rw [tradeNodes, List.map_map, List.map_map]
  rfl

lemma node_pos {data : List GObs} {x : ℕ} (hx : x ∈ data.map (·.ts)) :
    ∃ i, i < data.length ∧ (writeTrace data).get? i =
      some (WriteOp.node x) := by
  obtain ⟨i, hi⟩ := List.get?_of_mem hx
  have hlt : i < (data.map (·.ts)).length := by
    by_contra hle
    rw [List.get?_eq_none.mpr (by omega)] at hi
    exact Option.noConfusion hi
  rw [List.length_map] at hlt
  refine ⟨i, hlt, ?_⟩
  rw [writeTrace, List.append_assoc, List.get?_append, node_part_eq,
    List.get?_map, hi]
  · rfl
  · rw [node_part_eq, List.length_map, List.length_map]
    exact hlt

lemma getD_mem {l : List ℕ} {i : ℕ} (h : i < l.length) :
    l.getD i 0 ∈ l := by
  rw [List.getD_eq_getElem l 0 h]
  exact List.getElem_mem h

/-- C8. In every run of the persistence script, all node writes complete
before any edge write: whenever position k of the write trace holds an
edge write (NEXT or SIMILAR) with endpoints a, b, there are strictly
earlier positions holding the node writes of a and of b. -/
theorem c8_nodes_before_edges (data : List GObs) (k : ℕ) (a b : ℕ)
    (h : ((writeTrace data).get? k).bind edgeEndpoints = some (a, b)) :
    (∃ i, i < k ∧ (writeTrace data).get? i = some (WriteOp.node a)) ∧
    (∃ j, j < k ∧ (writeTrace data).get? j = some (WriteOp.node b)) := by
  obtain ⟨op, hop, hend⟩ : ∃ op, (writeTrace data).get? k = some op ∧
      edgeEndpoints op = some (a, b) := by
    cases hk : (writeTrace data).get? k with
    | none => rw [hk] at h; exact Option.noConfusion h
    | some op => rw [hk] at h; exact ⟨op, rfl, h⟩
  have hNlen : ((tradeNodes data).map
      (fun t => WriteOp.node t.trade_id)).length = data.length := by
    rw [node_part_eq, List.length_map, List.length_map]
  -- k is past the node-write prefix
  have hk : data.length ≤ k := by
    by_contra hlt
    rw [writeTrace, List.append_assoc, List.get?_append (by omega)] at hop
    rw [node_part_eq, List.get?_map] at hop
    cases hx : (data.map (·.ts)).get? k with
    | none => rw [hx] at hop; exact Option.noConfusion hop
    | some x =>
      rw [hx, Option.map_some'] at hop
      have hop' : op = WriteOp.node x := (Option.some_inj.mp hop).symm
      rw [hop'] at hend
      exact Option.noConfusion hend
  -- the op is an edge from one of the two edge phases
  have hopmem : op ∈ (nextEdges data).map (fun p => WriteOp.nextRel p.1 p.2)
      ++ (simPairs (data.map (·.open_)) SIMILAR_THRESHOLD).map (fun e =>
        WriteOp.similarRel ((data.map (·.ts)).getD e.1 0)
          ((data.map (·.ts)).getD e.2.1 0) e.2.2) := by
    rw [writeTrace, List.append_assoc, List.get?_append_right (by omega)]
      at hop
    exact List.get?_mem hop
  have hmem : a ∈ data.map (·.ts) ∧ b ∈ data.map (·.ts) := by
    rcases List.mem_append.mp hopmem with hn | hs
    · obtain ⟨p, hp, rfl⟩ := List.mem_map.mp hn
      obtain ⟨rfl, rfl⟩ : p.1 = a ∧ p.2 = b := by
        simp only [edgeEndpoints, Option.some.injEq, Prod.mk.injEq] at hend
        exact hend
      have h1 := (List.mem_zip hp).1
      have h2 := (List.mem_zip hp).2
      have hperm := List.perm_insertionSort
        (fun x y => x ≤ y) (data.map (·.ts))
      constructor
      · exact hperm.mem_iff.mp h1
      · exact hperm.mem_iff.mp (List.tail_subset _ h2)
    · obtain ⟨e, he, rfl⟩ := List.mem_map.mp hs
      obtain ⟨hij, hjlen, -⟩ := mem_simPairs.mp
        (show (e.1, e.2.1, e.2.2) ∈ simPairs (data.map (·.open_))
          SIMILAR_THRESHOLD from he)
      simp only [edgeEndpoints, Option.some.injEq, Prod.mk.injEq] at hend
      obtain ⟨rfl, rfl⟩ := hend
      rw [List.length_map] at hjlen
      constructor
      · exact getD_mem (by rw [List.length_map]; omega)
      · exact getD_mem (by rw [List.length_map]; omega)
  obtain ⟨i, hi, hnode⟩ := node_pos hmem.1
  obtain ⟨j, hj, hnode'⟩ := node_pos hmem.2
  exact ⟨⟨i, by omega, hnode⟩, ⟨j, by omega, hnode'⟩⟩

/-- C8 witness: a concrete two-observation collection whose trace is
[node 1, node 2, NEXT 1→2]; the edge write at position 2 is preceded by
both endpoint node writes. -/
theorem c8_nodes_before_edges_witness :
    (∃ i, i < 2 ∧ (writeTrace
        [⟨1, some 1, some 1, some 1, some 1, some 1, 0, false, false⟩,
         ⟨2, some 5, some 5, some 5, some 5, some 5, 0, false, false⟩]).get?
        i = some (WriteOp.node 1)) ∧
    (∃ j, j < 2 ∧ (writeTrace
        [⟨1, some 1, some 1, some 1, some 1, some 1, 0, false, false⟩,
         ⟨2, some 5, some 5, some 5, some 5, some 5, 0, false, false⟩]).get?
        j = some (WriteOp.node 2)) := by
  apply c8_nodes_before_edges
    [⟨1, some 1, some 1, some 1, some 1, some 1, 0, false, false⟩,
     ⟨2, some 5, some 5, some 5, some 5, some 5, 0, false, false⟩] 2 1 2
  have htrace : writeTrace
      [⟨1, some 1, some 1, some 1, some 1, some 1, 0, false, false⟩,
       ⟨2, some 5, some 5, some 5, some 5, some 5, 0, false, false⟩] =
      [WriteOp.node 1, WriteOp.node 2, WriteOp.nextRel 1 2] := by
    have hsim : simPairs
        ([ (some 1 : Option ℚ), some 5]) SIMILAR_THRESHOLD = [] := by
      have h01 : simCheck (some (1 : ℚ)) (some 5) SIMILAR_THRESHOLD
          = none := by
        rw [simCheck]
        norm_num [SIMILAR_THRESHOLD]
      norm_num [simPairs, List.range_succ, h01]
    rw [writeTrace]
    norm_num [tradeNodes, nextEdges, trade_ids, List.insertionSort,
      List.orderedInsert, hsim]
  rw [htrace]
  rfl

/-! ## Coercion failures are isolated -/

lemma pctChange_some {o : Obs} {pc : Option ℚ} {r : ℚ}
    (h : pctChange o pc = some r) : o.close.isSome = true := by
  cases pc with
  | none =>
    rw [show pctChange o none = none from rfl] at h
    exact Option.noConfusion h
  | some p =>
    cases hc : o.close with
    | none =>
      simp only [pctChange, hc] at h
      exact Option.noConfusion h
    | some c => rfl

lemma wr_close_isSome :
    ∀ (l : List Obs) (prev : Option ℚ), ∀ p ∈ withReturnsAux prev l,
      p.1.close.isSome = true := by
  intro l
  induction l with
  | nil =>
    intro prev p hp
    simp [withReturnsAux] at hp
  | cons o rest ih =>
    intro prev p hp
    rw [withReturnsAux] at hp
    cases hpc : pctChange o prev with
    | none =>
      rw [hpc] at hp
      exact ih _ p hp
    | some r =>
      rw [hpc] at hp
      rcases List.mem_cons.mp hp with rfl | hp'
      · exact pctChange_some hpc
      · exact ih _ p hp'

/-- C9. A failed numeric coercion yields a missing-value marker and the
load is not aborted: every non-duplicate row with a nonzero-or-missing
volume still reaches the cleaned output whatever other cells failed to
coerce; the volume statistics skip a row whose volume is missing (the
quantile over the series is unchanged by such a row); and rows whose
close failed to coerce are excluded from the return series — every
annotated observation has a present close. -/
theorem c9_coercion_isolated :
    (∀ tag, toNumeric (RawField.bad tag) = none) ∧
    (∀ rs, ∀ r ∈ dedupRows rs, (coerceRow r).volume ≠ some 0 →
      coerceRow r ∈ load_and_clean_data rs) ∧
    (∀ (o : AObs) (ds : List AObs) (q : ℚ), o.volume = none →
      quantileQ (volSeries (o :: ds)) q = quantileQ (volSeries ds) q) ∧
    (∀ (data : List Obs) (t : ℚ), ∀ o ∈ detect_outliers data t,
      o.close.isSome = true) := by
  refine ⟨fun _ => rfl, ?_, ?_, ?_⟩
  · intro rs r hr hv
    rw [load_and_clean_data]
    refine List.mem_filter.mpr ⟨List.mem_map.mpr ⟨r, hr, rfl⟩, ?_⟩
    exact decide_eq_true hv
  · intro o ds q ho
    rw [volSeries, volSeries, List.filterMap_cons_none]
    exact ho
  · intro data t o ho
    rw [detect_outliers, List.mem_map] at ho
    obtain ⟨p, hp, rfl⟩ := ho
    exact wr_close_isSome data none p hp

/-- C9 witness: a row whose open cell is unparsable is still cleaned and
retained; prepending a missing-volume observation leaves the 5th-percentile
volume bound unchanged. -/
theorem c9_coercion_isolated_witness :
    (toNumeric (RawField.bad 7) = none) ∧
    (coerceRow ⟨1, .bad 0, .num 1, .num 1, .num 1, .num 5⟩ ∈
      load_and_clean_data [⟨1, .bad 0, .num 1, .num 1, .num 1, .num 5⟩]) ∧
    (quantileQ (volSeries
        (⟨9, none, none, none, none, none, 0, false⟩ ::
          [⟨1, none, none, none, none, some 5, 0, false⟩])) (5 / 100) =
      quantileQ (volSeries
        [⟨1, none, none, none, none, some 5, 0, false⟩]) (5 / 100)) := by
  refine ⟨c9_coercion_isolated.1 7, ?_, ?_⟩
  · refine c9_coercion_isolated.2.1
      [⟨1, .bad 0, .num 1, .num 1, .num 1, .num 5⟩]
      ⟨1, .bad 0, .num 1, .num 1, .num 1, .num 5⟩ ?_ ?_
    · rw [dedupRows]
      exact List.mem_cons_self _ _
    · norm_num [coerceRow, toNumeric]
  · exact c9_coercion_isolated.2.2.1
      ⟨9, none, none, none, none, none, 0, false⟩
      [⟨1, none, none, none, none, some 5, 0, false⟩] (5 / 100) rfl

end StockGraph
